import Mathlib

/-!
Verification of the traffic-control rule compiler of this repository
(file `pkg/server/chaosd/tc.go`).

The Go code is shallowly embedded below:
* `uint32`/`uint64` fields become `Nat` (the code only compares them with `> 0`
  and formats them with `%d`; no arithmetic is performed on them);
* `float32` fields become `Rat` (the code only compares them with `> 0` and
  formats them with `%f`);
* the external namespace-scoped command runner is a parameter giving, for the
  k-th subprocess invocation, its combined output and its error status;
* the external iptables collaborator is a parameter from chain descriptors to
  an error status;
* `tc` command lines, which the Go code builds with `fmt.Sprintf` and then
  cuts with `strings.Split(args, " ")` before handing them to the runner, are
  built here directly as the resulting token lists (every interpolated piece
  is a fixed word, a `%d`/`%f` rendering without spaces, or a two-word pair
  such as `parent 1:`, so building the split form directly is the same list).
-/

namespace ChaosdTc

/-! ### Decimal formatting (`fmt.Sprintf` verbs `%d` and `%f`) -/

/-- Big-endian decimal digits of `n`; the fuel argument is only there to make
the recursion structural, `fuel = n + 1` always suffices. -/
def natFmtAux : Nat → Nat → List Char
  | 0, _ => []
  | fuel + 1, n =>
    if n < 10 then [Nat.digitChar n]
    else natFmtAux fuel (n / 10) ++ [Nat.digitChar (n % 10)]

/-- Rendering of a `%d` integer field. -/
def natFmt (n : Nat) : String :=
  ⟨natFmtAux (n + 1) n⟩

/-- Left-pad a digit string to six places (the fractional part of `%f`). -/
def pad6 (s : List Char) : List Char :=
  List.replicate (6 - s.length) '0' ++ s

/-- Rendering of a `%f` float field with six fractional digits.  The Go code
formats correlation/probability fields with `%f`; every verified property only
needs that this rendering is a single token made of digits and a dot (the
claims never inspect the fractional digits, so the rounding of the last digit
is abstracted to truncation).  All call sites have `0 < q`. -/
def ratFmt (q : Rat) : String :=
  let scaled : Nat := (q * 1000000).floor.toNat
  ⟨natFmtAux (scaled / 1000000 + 1) (scaled / 1000000)
    ++ '.' :: pad6 (natFmtAux (scaled % 1000000 + 1) (scaled % 1000000))⟩

theorem digitChar_isDigit {n : Nat} (h : n < 10) : (Nat.digitChar n).isDigit = true := by
  interval_cases n <;> decide

theorem natFmtAux_digits (fuel n : Nat) : (natFmtAux fuel n).all Char.isDigit = true := by
  induction fuel generalizing n with
  | zero => rfl
  | succ fuel ih =>
    unfold natFmtAux
    by_cases h : n < 10
    · simp [h, digitChar_isDigit h]
    · have h10 : n % 10 < 10 := Nat.mod_lt _ (by omega)
      simp [h, List.all_append, ih, digitChar_isDigit h10]

theorem natFmt_digits (n : Nat) : (natFmt n).data.all Char.isDigit = true :=
  natFmtAux_digits _ _

/-- A string containing a non-digit character is never a `%d` rendering. -/
theorem eq_natFmt_iff_false (s : String) (hs : s.data.all Char.isDigit = false) (m : Nat) :
    s = natFmt m ↔ False := by
  constructor
  · intro h
    rw [h] at hs
    rw [natFmt_digits m] at hs
    exact Bool.true_eq_false.mp hs
  · exact False.elim

theorem dot_mem_ratFmt (q : Rat) : '.' ∈ (ratFmt q).data := by
  unfold ratFmt
  simp

/-- A string without a dot is never a `%f` rendering. -/
theorem eq_ratFmt_iff_false (s : String) (hs : '.' ∉ s.data) (q : Rat) :
    s = ratFmt q ↔ False := by
  constructor
  · intro h
    have hq := dot_mem_ratFmt q
    rw [← h] at hq
    exact hs hq
  · exact False.elim

/-! ### Data model (`pb.Netem`, `pb.Tbf`, `pb.Tc`, `pb.Qdisc`, `pb.Chain`) -/

/-- `pb.Netem`: integer fields (`uint32`) as `Nat`, float fields as `Rat`. -/
structure Netem where
  time : Nat
  jitter : Nat
  delayCorr : Rat
  limit : Nat
  loss : Rat
  lossCorr : Rat
  gap : Nat
  duplicate : Rat
  duplicateCorr : Rat
  reorder : Rat
  reorderCorr : Rat
  corrupt : Rat
  corruptCorr : Rat
deriving DecidableEq, Inhabited

/-- The all-zero `Netem` payload. -/
def Netem.zero : Netem :=
  ⟨0, 0, 0, 0, 0, 0, 0, 0, 0, 0, 0, 0, 0⟩

/-- `pb.Tbf` (`Buffer` is the burst field, `MinBurst` doubles as the mtu). -/
structure Tbf where
  rate : Nat
  limit : Nat
  buffer : Nat
  peakRate : Nat
  minBurst : Nat
deriving DecidableEq, Inhabited

/-- `pb.Tc_NETEM` (the `pb.Tc_Type` enum is an integer). -/
def Tc_NETEM : Nat := 0

/-- `pb.Tc_BANDWIDTH`. -/
def Tc_BANDWIDTH : Nat := 1

/-- `pb.Tc`: a rule with its variant tag, optional ipset filter and payloads. -/
structure Tc where
  tcType : Nat
  ipset : String
  netem : Option Netem
  tbf : Option Tbf
deriving DecidableEq, Inhabited

/-! ### Argument codec (`convertNetemToArgs`, `convertTbfToArgs`)

The Go function accumulates a string and finally removes empty fragments with
a split-on-space/re-join; the definitions below build the resulting token list
directly, one `…Part` definition per conditional block of the source. -/

/-- Block `if netem.Jitter > 0 { … }` nested in the delay block. -/
def jitterPart (n : Netem) : List String :=
  if 0 < n.jitter then
    [natFmt n.jitter] ++ (if 0 < n.delayCorr then [ratFmt n.delayCorr] else [])
  else []

/-- Block `if netem.Gap > 0 { … }` nested in the reorder block. -/
def gapPart (n : Netem) : List String :=
  if 0 < n.gap then ["gap", natFmt n.gap] else []

/-- Block `if netem.Reorder > 0 { … }`, itself nested in the delay block
("reordering not possible without specifying some delay"). -/
def reorderPart (n : Netem) : List String :=
  if 0 < n.reorder then
    ["reorder", ratFmt n.reorder]
      ++ (if 0 < n.reorderCorr then [ratFmt n.reorderCorr] else [])
      ++ gapPart n
  else []

/-- Block `if netem.Time > 0 { … }`. -/
def delayPart (n : Netem) : List String :=
  if 0 < n.time then
    ["delay", natFmt n.time] ++ jitterPart n ++ reorderPart n
  else []

/-- Block `if netem.Limit > 0 { … }`. -/
def limitPart (n : Netem) : List String :=
  if 0 < n.limit then ["limit", natFmt n.limit] else []

/-- Block `if netem.Loss > 0 { … }`. -/
def lossPart (n : Netem) : List String :=
  if 0 < n.loss then
    ["loss", ratFmt n.loss] ++ (if 0 < n.lossCorr then [ratFmt n.lossCorr] else [])
  else []

/-- Block `if netem.Duplicate > 0 { … }`. -/
def duplicatePart (n : Netem) : List String :=
  if 0 < n.duplicate then
    ["duplicate", ratFmt n.duplicate]
      ++ (if 0 < n.duplicateCorr then [ratFmt n.duplicateCorr] else [])
  else []

/-- Block `if netem.Corrupt > 0 { … }`. -/
def corruptPart (n : Netem) : List String :=
  if 0 < n.corrupt then
    ["corrupt", ratFmt n.corrupt]
      ++ (if 0 < n.corruptCorr then [ratFmt n.corruptCorr] else [])
  else []

/-- `convertNetemToArgs`, as the token list the traffic-control tool receives. -/
def convertNetemToArgs (n : Netem) : List String :=
  delayPart n ++ limitPart n ++ lossPart n ++ duplicatePart n ++ corruptPart n

/-- `convertTbfToArgs`, as the token list the traffic-control tool receives. -/
def convertTbfToArgs (t : Tbf) : List String :=
  ["rate", natFmt t.rate, "burst", natFmt t.buffer]
    ++ (if 0 < t.limit then ["limit", natFmt t.limit] else [])
    ++ (if 0 < t.peakRate then ["peakrate", natFmt t.peakRate, "mtu", natFmt t.minBurst] else [])

theorem mem_jitterPart_iff (n : Netem) (s : String) :
    s ∈ jitterPart n ↔ 0 < n.jitter ∧
      (s = natFmt n.jitter ∨ (0 < n.delayCorr ∧ s = ratFmt n.delayCorr)) := by
  unfold jitterPart
  split_ifs <;> simp [*]

theorem mem_gapPart_iff (n : Netem) (s : String) :
    s ∈ gapPart n ↔ 0 < n.gap ∧ (s = "gap" ∨ s = natFmt n.gap) := by
  unfold gapPart
  split_ifs <;> simp [*]

theorem mem_reorderPart_iff (n : Netem) (s : String) :
    s ∈ reorderPart n ↔ 0 < n.reorder ∧
      (s = "reorder" ∨ s = ratFmt n.reorder
        ∨ (0 < n.reorderCorr ∧ s = ratFmt n.reorderCorr) ∨ s ∈ gapPart n) := by
  unfold reorderPart
  split_ifs <;> simp [*]

theorem mem_delayPart_iff (n : Netem) (s : String) :
    s ∈ delayPart n ↔ 0 < n.time ∧
      (s = "delay" ∨ s = natFmt n.time ∨ s ∈ jitterPart n ∨ s ∈ reorderPart n) := by
  unfold delayPart
  split_ifs <;> simp [*]

theorem mem_limitPart_iff (n : Netem) (s : String) :
    s ∈ limitPart n ↔ 0 < n.limit ∧ (s = "limit" ∨ s = natFmt n.limit) := by
  unfold limitPart
  split_ifs <;> simp [*]

theorem mem_lossPart_iff (n : Netem) (s : String) :
    s ∈ lossPart n ↔ 0 < n.loss ∧
      (s = "loss" ∨ s = ratFmt n.loss ∨ (0 < n.lossCorr ∧ s = ratFmt n.lossCorr)) := by
  unfold lossPart
  split_ifs <;> simp [*]

theorem mem_duplicatePart_iff (n : Netem) (s : String) :
    s ∈ duplicatePart n ↔ 0 < n.duplicate ∧
      (s = "duplicate" ∨ s = ratFmt n.duplicate
        ∨ (0 < n.duplicateCorr ∧ s = ratFmt n.duplicateCorr)) := by
  unfold duplicatePart
  split_ifs <;> simp [*]

theorem mem_corruptPart_iff (n : Netem) (s : String) :
    s ∈ corruptPart n ↔ 0 < n.corrupt ∧
      (s = "corrupt" ∨ s = ratFmt n.corrupt
        ∨ (0 < n.corruptCorr ∧ s = ratFmt n.corruptCorr)) := by
  unfold corruptPart
  split_ifs <;> simp [*]

/-! ### `generateQdiscArgs` -/

/-- `pb.TcHandle`: a (major, minor) qdisc identifier. -/
structure TcHandle where
  major : Nat
  minor : Nat
deriving DecidableEq, Inhabited

/-- `pb.Qdisc` as consumed by `generateQdiscArgs`. -/
structure Qdisc where
  parent : Option TcHandle
  handle : Option TcHandle
  qdiscType : String
  args : List String
deriving DecidableEq, Inhabited

/-- Whether an `Except` result is the error case. -/
def isErr {ε α : Type} : Except ε α → Bool
  | Except.error _ => true
  | Except.ok _ => false

/-- `generateQdiscArgs(action, qdisc)`: builds the full argument vector for a
qdisc operation, or fails when the qdisc (or its type) is missing.  A nil
`*pb.Qdisc` pointer is `none`. -/
def generateQdiscArgs (action : String) (q : Option Qdisc) : Except String (List String) :=
  match q with
  | none => Except.error ("qdisc is required")
  | some qdisc =>
    if qdisc.qdiscType = "" then Except.error ("qdisc.Type is required")
    else
      let args := ["qdisc", action, "dev", "eth0"]
      let args := args ++
        (match qdisc.parent with
         | none => ["root"]
         | some p =>
           if p.major = 1 ∧ p.minor = 0 then ["root"]
           else ["parent", natFmt p.major ++ ":" ++ natFmt p.minor])
      let args := args ++
        (match qdisc.handle with
         | none => ["handle", natFmt 1 ++ ":" ++ natFmt 0]
         | some h => ["handle", natFmt h.major ++ ":" ++ natFmt h.minor])
      let args := args ++ [qdisc.qdiscType]
      Except.ok (args ++ qdisc.args)

/-! ### The tc client (`flush`, `addTc`, `addPrio`, `addNetem`, `addTbf`)

Each method runs one or more subprocess invocations through the external
namespace-scoped runner.  The runner is modelled as a function `Exec` from the
invocation counter (0 for the flush, then one per `tc qdisc add`) to the pair
(combined output, error status); `none` means a zero exit status.  Every model
function returns the list of command token vectors it actually handed to the
runner, so ordering and abort behaviour are observable. -/

/-- External runner: k-th invocation ↦ (combined output, error).  An error is
the error's message; `none` is success. -/
abbrev Exec := Nat → String × Option String

/-- Result of a sequence of qdisc operations: the commands attempted (in
order), the next invocation counter, and the first error if any. -/
structure PhaseRes where
  trace : List (List String)
  ctr : Nat
  err : Option String
deriving DecidableEq

/-- Modelled from the spec: `encodeOutputToError` (defined outside this
file's sources) wraps a non-zero exit together with the command's combined
output into one error value (spec §4.2: "Any non-zero exit from the runner is
wrapped and returned"). -/
def encodeOutputToError (output : String) (err : String) : String :=
  "error code: " ++ err ++ ", msg: " ++ output

/-- `ruleNotExist` (declared in the source, never consulted by `flush`). -/
def ruleNotExist : String := "Cannot delete qdisc with handle of zero."

/-- `ruleNotExistLowerVersion`. -/
def ruleNotExistLowerVersion : String := "RTNETLINK answers: No such file or directory"

/-- `RULE_NOT_EXIST`, the only pattern `flush` actually checks. -/
def RULE_NOT_EXIST : String := "RTNETLINK answers: No such file or directory"

/-- `strings.Contains`. -/
def strContains (s pat : String) : Bool :=
  decide (pat.data <:+: s.data)

/-- The command run by `flush`: `tc qdisc del dev eth0 root`. -/
def flushCmd : List String := ["qdisc", "del", "dev", "eth0", "root"]

/-- `tcClient.flush`, applied to the (combined output, error) pair of its one
command: returns the error unless the run succeeded or the output contains
`RULE_NOT_EXIST`. -/
def flush (r : String × Option String) : Option String :=
  match r with
  | (_, none) => none
  | (output, some err) => if strContains output RULE_NOT_EXIST then none else some err

/-- Token vector of the `tc qdisc add … netem …` command built by `addNetem`
(`parentToks`/`handleToks` are the space-split forms of the `parentArg` and
`handleArg` strings; an empty netem argument string leaves one empty token
behind after the split, hence the padding). -/
def netemCmdTokens (parentToks handleToks : List String) (n : Netem) : List String :=
  ["qdisc", "add", "dev", "eth0"] ++ parentToks ++ handleToks ++ ["netem"]
    ++ (if convertNetemToArgs n = [] then [""] else convertNetemToArgs n)

/-- Token vector of the `tc qdisc add … tbf …` command built by `addTbf`. -/
def tbfCmdTokens (parentToks handleToks : List String) (t : Tbf) : List String :=
  ["qdisc", "add", "dev", "eth0"] ++ parentToks ++ handleToks ++ ["tbf"]
    ++ convertTbfToArgs t

/-- The dispatch performed by `tcClient.addTc` before anything runs: either a
validation error or the single command to execute. -/
def addTcCmd (parentToks handleToks : List String) (tc : Tc) : Except String (List String) :=
  if tc.tcType = Tc_BANDWIDTH then
    match tc.tbf with
    | none => Except.error ("tbf is nil while type is BANDWIDTH")
    | some t => Except.ok (tbfCmdTokens parentToks handleToks t)
  else if tc.tcType = Tc_NETEM then
    match tc.netem with
    | none => Except.error ("netem is nil while type is NETEM")
    | some n => Except.ok (netemCmdTokens parentToks handleToks n)
  else Except.error ("unknown tc qdisc type")

/-- Run one command through the runner at counter `ctr`. -/
def runOne (exec : Exec) (ctr : Nat) (cmd : List String) : PhaseRes :=
  match exec ctr with
  | (out, some e) => ⟨[cmd], ctr + 1, some (encodeOutputToError out e)⟩
  | (_, none) => ⟨[cmd], ctr + 1, none⟩

/-- `tcClient.addNetem`. -/
def addNetem (exec : Exec) (ctr : Nat) (parentToks handleToks : List String) (n : Netem) :
    PhaseRes :=
  runOne exec ctr (netemCmdTokens parentToks handleToks n)

/-- `tcClient.addTbf`. -/
def addTbf (exec : Exec) (ctr : Nat) (parentToks handleToks : List String) (t : Tbf) :
    PhaseRes :=
  runOne exec ctr (tbfCmdTokens parentToks handleToks t)

/-- `tcClient.addTc`: dispatch on the rule variant, fail on a missing payload
or an unknown variant, otherwise delegate to `addNetem`/`addTbf`. -/
def addTc (exec : Exec) (ctr : Nat) (parentToks handleToks : List String) (tc : Tc) :
    PhaseRes :=
  if tc.tcType = Tc_BANDWIDTH then
    match tc.tbf with
    | none => ⟨[], ctr, some ("tbf is nil while type is BANDWIDTH")⟩
    | some t => addTbf exec ctr parentToks handleToks t
  else if tc.tcType = Tc_NETEM then
    match tc.netem with
    | none => ⟨[], ctr, some ("netem is nil while type is NETEM")⟩
    | some n => addNetem exec ctr parentToks handleToks n
  else ⟨[], ctr, some ("unknown tc qdisc type")⟩

theorem addTc_eq_cmd (exec : Exec) (ctr : Nat) (pt ht : List String) (tc : Tc) :
    addTc exec ctr pt ht tc =
      match addTcCmd pt ht tc with
      | Except.error e => ⟨[], ctr, some e⟩
      | Except.ok cmd => runOne exec ctr cmd := by
  unfold addTc addTcCmd addTbf addNetem
  split_ifs <;> cases tc.tbf <;> cases tc.netem <;> rfl

/-- The `prio` command built by `addPrio`:
`qdisc add dev eth0 <root|parent p:> handle p+1: prio bands b priomap …`. -/
def prioCmd (parent band : Nat) : List String :=
  ["qdisc", "add", "dev", "eth0"]
    ++ (if 0 < parent then ["parent", natFmt parent ++ ":"] else ["root"])
    ++ ["handle", natFmt (parent + 1) ++ ":", "prio", "bands", natFmt band, "priomap",
        "1", "2", "2", "2", "1", "2", "0", "0", "1", "1", "1", "1", "1", "1", "1", "1"]

/-- The `sfq` leaf command for band `idx` built by `addPrio`'s loop:
`qdisc add dev eth0 parent p+1:idx handle p+1+idx: sfq`. -/
def sfqCmd (parent idx : Nat) : List String :=
  ["qdisc", "add", "dev", "eth0", "parent", natFmt (parent + 1) ++ ":" ++ natFmt idx,
   "handle", natFmt (parent + 1 + idx) ++ ":", "sfq"]

/-- Run a fixed list of commands in order, aborting at the first failure. -/
def runCmds (exec : Exec) : Nat → List (List String) → PhaseRes
  | ctr, [] => ⟨[], ctr, none⟩
  | ctr, c :: rest =>
    match exec ctr with
    | (out, some e) => ⟨[c], ctr + 1, some (encodeOutputToError out e)⟩
    | (_, none) =>
      let r := runCmds exec (ctr + 1) rest
      ⟨c :: r.trace, r.ctr, r.err⟩

/-- `tcClient.addPrio`: the prio qdisc followed by the three default sfq
leaves on bands 1–3. -/
def addPrio (exec : Exec) (ctr parent band : Nat) : PhaseRes :=
  runCmds exec ctr [prioCmd parent band, sfqCmd parent 1, sfqCmd parent 2, sfqCmd parent 3]

/-! ### Rule partitioner and the entry point `SetContainerTcRules`

`SetContainerTcRules` splits the incoming rules into `globalTc` (no ipset) and
the map `filterTc : ipset ↦ rules`.  `filterTc` is a Go map: its *contents*
are deterministic (modelled by `partitionTcs`, an association list in order of
first occurrence of each key, values in arrival order) but the order in which
`range filterTc` visits the keys is unspecified by Go and randomised by the
runtime.  The iteration order is therefore an explicit argument `iter` of the
model, constrained in the theorems to be a permutation of the map's entries. -/

/-- `filterTc[tc.Ipset] = append(filterTc[tc.Ipset], tc)` on an association
list kept in first-insertion order. -/
def insertGroup : List (String × List Tc) → String → Tc → List (String × List Tc)
  | [], key, tc => [(key, [tc])]
  | (k, v) :: rest, key, tc =>
    if k = key then (k, v ++ [tc]) :: rest
    else (k, v) :: insertGroup rest key tc

/-- The partition loop of `SetContainerTcRules`. -/
def partitionTcsAux : List Tc × List (String × List Tc) → List Tc → List Tc × List (String × List Tc)
  | acc, [] => acc
  | (g, f), tc :: rest =>
    if tc.ipset = "" then partitionTcsAux (g ++ [tc], f) rest
    else partitionTcsAux (g, insertGroup f tc.ipset tc) rest

/-- `(globalTc, filterTc)` computed from the request's rules. -/
def partitionTcs (tcs : List Tc) : List Tc × List (String × List Tc) :=
  partitionTcsAux ([], []) tcs

/-- `pb.Chain`: the classification-chain descriptor handed to the iptables
collaborator (`Direction` is always `OUTPUT` here). -/
structure Chain where
  name : String
  direction : String
  ipsets : List String
  target : String
deriving DecidableEq, Inhabited

/-- Result of a whole `SetContainerTcRules` call: the tc commands attempted in
order, the chain descriptors handed to `setIptablesChains` (`none` when the
compilation aborted before reaching it), and the returned error if any. -/
structure TcRulesRes where
  trace : List (List String)
  chains : Option (List Chain)
  err : Option String
deriving DecidableEq

/-- Result of the filtered-group inner loop: commands, the mutated
`currentHandler`, the counter and the first error. -/
structure GroupRes where
  trace : List (List String)
  handler : Nat
  ctr : Nat
  err : Option String
deriving DecidableEq

/-- Result of the loop over all filtered groups. -/
structure GroupsRes where
  trace : List (List String)
  chains : List Chain
  ctr : Nat
  err : Option String
deriving DecidableEq

/-- The loop `for index, tc := range globalTc`: rule 0 is parented at root
with handle `1:`, rule `i > 0` is parented at `i:` with handle `i+1:`. -/
def runGlobal (exec : Exec) : Nat → Nat → List Tc → PhaseRes
  | _, ctr, [] => ⟨[], ctr, none⟩
  | index, ctr, tc :: rest =>
    let pt := if 0 < index then ["parent", natFmt index ++ ":"] else ["root"]
    let r := addTc exec ctr pt (["handle", natFmt (index + 1) ++ ":"]) tc
    match r.err with
    | some _ => r
    | none =>
      let r2 := runGlobal exec (index + 1) r.ctr rest
      ⟨r.trace ++ r2.trace, r2.ctr, r2.err⟩

/-- The loop `for i, tc := range tcs` of one filtered group: the first rule is
parented at the group's prio band `parent:(index+4)`, later rules at the
previous handle; `currentHandler` is incremented before each handle is
assigned. -/
def runGroupRules (exec : Exec) (parent idx : Nat) :
    Nat → Nat → Nat → List Tc → GroupRes
  | _, ch, ctr, [] => ⟨[], ch, ctr, none⟩
  | i, ch, ctr, tc :: rest =>
    let pt :=
      if 0 < i then ["parent", natFmt ch ++ ":"]
      else ["parent", natFmt parent ++ ":" ++ natFmt (idx + 4)]
    let r := addTc exec ctr pt (["handle", natFmt (ch + 1) ++ ":"]) tc
    match r.err with
    | some e => ⟨r.trace, ch + 1, r.ctr, some e⟩
    | none =>
      let r2 := runGroupRules exec parent idx (i + 1) (ch + 1) r.ctr rest
      ⟨r.trace ++ r2.trace, r2.handler, r2.ctr, r2.err⟩

/-- The loop `for ipset, tcs := range filterTc`, in the iteration order the
map happens to produce: attach the group's sub-chain, then record its
classification-chain descriptor `TC-TABLES-<index>` targeting band
`parent:(index+4)`. -/
def runGroups (exec : Exec) (parent : Nat) :
    Nat → Nat → Nat → List (String × List Tc) → GroupsRes
  | _, _, ctr, [] => ⟨[], [], ctr, none⟩
  | index, ch, ctr, grp :: rest =>
    let r := runGroupRules exec parent index 0 ch ctr grp.2
    match r.err with
    | some e => ⟨r.trace, [], r.ctr, some e⟩
    | none =>
      let chain : Chain :=
        ⟨"TC-TABLES-" ++ natFmt index, "OUTPUT", [grp.1],
         "CLASSIFY --set-class " ++ natFmt parent ++ ":" ++ natFmt (index + 4)⟩
      let r2 := runGroups exec parent (index + 1) r.handler r.ctr rest
      ⟨r.trace ++ r2.trace, chain :: r2.chains, r2.ctr, r2.err⟩

/-- `Server.SetContainerTcRules` (container-pid resolution is an external
collaborator and out of scope): flush, partition, lay out the global chain,
install the prio multiplexer with `3 + len(filterTc)` bands and its three sfq
leaves, attach each filtered group, then hand the chain descriptors to the
iptables collaborator `ipt`.  `iter` is the iteration order of the `filterTc`
map (see above). -/
def SetContainerTcRules (exec : Exec) (ipt : List Chain → Option String)
    (tcs : List Tc) (iter : List (String × List Tc)) : TcRulesRes :=
  match flush (exec 0) with
  | some e => ⟨[flushCmd], none, some e⟩
  | none =>
    let globalTc := (partitionTcs tcs).1
    let g := runGlobal exec 0 1 globalTc
    match g.err with
    | some e => ⟨flushCmd :: g.trace, none, some e⟩
    | none =>
      let parent := globalTc.length
      let band := 3 + iter.length
      let p := addPrio exec g.ctr parent band
      match p.err with
      | some e => ⟨flushCmd :: g.trace ++ p.trace, none, some e⟩
      | none =>
        let fr := runGroups exec (parent + 1) 0 (parent + 1 + 3) p.ctr iter
        match fr.err with
        | some e => ⟨flushCmd :: g.trace ++ p.trace ++ fr.trace, none, some e⟩
        | none =>
          ⟨flushCmd :: g.trace ++ p.trace ++ fr.trace, some fr.chains, ipt fr.chains⟩

/-! ### The static command plan

When every rule carries the payload its tag announces, the sequence of
commands the compiler attempts is a pure function of the rule set and the map
iteration order; the runner only decides where the sequence stops.  The
definitions below compute that plan, and the lemmas relate the compiler to
`runCmds` over it. -/

/-- A rule whose payload matches its variant tag (`addTc` builds a command for
it instead of failing validation). -/
def wfTc (tc : Tc) : Prop :=
  (tc.tcType = Tc_NETEM ∧ tc.netem ≠ none) ∨ (tc.tcType = Tc_BANDWIDTH ∧ tc.tbf ≠ none)

instance (tc : Tc) : Decidable (wfTc tc) := by
  unfold wfTc
  infer_instance

/-- The command `addTc` would run (junk for a rule failing validation). -/
def tcCmdOf (parentToks handleToks : List String) (tc : Tc) : List String :=
  match addTcCmd parentToks handleToks tc with
  | Except.ok cmd => cmd
  | Except.error _ => []

theorem addTcCmd_wf {tc : Tc} (h : wfTc tc) (pt ht : List String) :
    addTcCmd pt ht tc = Except.ok (tcCmdOf pt ht tc) := by
  unfold tcCmdOf addTcCmd
  rcases h with ⟨ht0, hn⟩ | ⟨ht1, hb⟩
  · cases hnm : tc.netem with
    | none => exact absurd hnm hn
    | some n => simp [ht0, Tc_NETEM, Tc_BANDWIDTH, hnm]
  · cases htb : tc.tbf with
    | none => exact absurd htb hb
    | some t => simp [ht1, Tc_BANDWIDTH, htb]

theorem addTc_wf (exec : Exec) (ctr : Nat) {tc : Tc} (h : wfTc tc) (pt ht : List String) :
    addTc exec ctr pt ht tc = runOne exec ctr (tcCmdOf pt ht tc) := by
  rw [addTc_eq_cmd, addTcCmd_wf h]

/-- The global-chain commands for rules `index, index+1, …`. -/
def globalCmdsFrom : Nat → List Tc → List (List String)
  | _, [] => []
  | index, tc :: rest =>
    tcCmdOf (if 0 < index then ["parent", natFmt index ++ ":"] else ["root"])
        (["handle", natFmt (index + 1) ++ ":"]) tc
      :: globalCmdsFrom (index + 1) rest

/-- The commands of one filtered group, from inner index `i` and handler `ch`. -/
def groupCmdsFrom (parent idx : Nat) : Nat → Nat → List Tc → List (List String)
  | _, _, [] => []
  | i, ch, tc :: rest =>
    tcCmdOf (if 0 < i then ["parent", natFmt ch ++ ":"]
             else ["parent", natFmt parent ++ ":" ++ natFmt (idx + 4)])
        (["handle", natFmt (ch + 1) ++ ":"]) tc
      :: groupCmdsFrom parent idx (i + 1) (ch + 1) rest

/-- The commands of all filtered groups, in iteration order. -/
def groupsCmds (parent : Nat) : Nat → Nat → List (String × List Tc) → List (List String)
  | _, _, [] => []
  | index, ch, grp :: rest =>
    groupCmdsFrom parent index 0 ch grp.2 ++ groupsCmds parent (index + 1) (ch + grp.2.length) rest

/-- The classification-chain descriptors, in iteration order. -/
def groupsChains (parent : Nat) : Nat → List (String × List Tc) → List Chain
  | _, [] => []
  | index, grp :: rest =>
    ⟨"TC-TABLES-" ++ natFmt index, "OUTPUT", [grp.1],
     "CLASSIFY --set-class " ++ natFmt parent ++ ":" ++ natFmt (index + 4)⟩
      :: groupsChains parent (index + 1) rest

/-- Every `tc qdisc add` command of one compilation, in order: the global
chain, the prio multiplexer and its three sfq leaves, then the filtered
groups. -/
def fullPlan (tcs : List Tc) (iter : List (String × List Tc)) : List (List String) :=
  let g := (partitionTcs tcs).1.length
  globalCmdsFrom 0 (partitionTcs tcs).1
    ++ [prioCmd g (3 + iter.length), sfqCmd g 1, sfqCmd g 2, sfqCmd g 3]
    ++ groupsCmds (g + 1) 0 (g + 1 + 3) iter

theorem globalCmdsFrom_length (tcs : List Tc) : ∀ i, (globalCmdsFrom i tcs).length = tcs.length := by
  induction tcs with
  | nil => intro i; rfl
  | cons tc rest ih => intro i; simp [globalCmdsFrom, ih]

theorem groupCmdsFrom_length (parent idx : Nat) (tcs : List Tc) :
    ∀ i ch, (groupCmdsFrom parent idx i ch tcs).length = tcs.length := by
  induction tcs with
  | nil => intro i ch; rfl
  | cons tc rest ih => intro i ch; simp [groupCmdsFrom, ih]

/-- Total number of filtered rules. -/
def groupsSize (iter : List (String × List Tc)) : Nat :=
  (iter.map (fun p => p.2.length)).sum

theorem groupsCmds_length (parent : Nat) (iter : List (String × List Tc)) :
    ∀ index ch, (groupsCmds parent index ch iter).length = groupsSize iter := by
  induction iter with
  | nil => intro index ch; rfl
  | cons grp rest ih =>
    intro index ch
    have h2 := ih (index + 1) (ch + grp.2.length)
    simp only [groupsCmds, List.length_append, groupCmdsFrom_length, h2, groupsSize,
      List.map_cons, List.sum_cons]

/-! ### `runCmds` laws -/

theorem runCmds_append (exec : Exec) (a b : List (List String)) : ∀ ctr,
    runCmds exec ctr (a ++ b) =
      let r := runCmds exec ctr a
      match r.err with
      | some e => ⟨r.trace, r.ctr, some e⟩
      | none =>
        let r2 := runCmds exec r.ctr b
        ⟨r.trace ++ r2.trace, r2.ctr, r2.err⟩ := by
  induction a with
  | nil => intro ctr; simp [runCmds]
  | cons c rest ih =>
    intro ctr
    simp only [List.cons_append, runCmds]
    cases hx : exec ctr with
    | mk out oe =>
      cases oe with
      | some e => rfl
      | none => simp [ih (ctr + 1)]; cases h2 : (runCmds exec (ctr + 1) rest).err <;> simp [h2]

theorem runCmds_ok (exec : Exec) (cmds : List (List String)) : ∀ ctr,
    (∀ j, j < cmds.length → (exec (ctr + j)).2 = none) →
    runCmds exec ctr cmds = ⟨cmds, ctr + cmds.length, none⟩ := by
  induction cmds with
  | nil => intro ctr _; rfl
  | cons c rest ih =>
    intro ctr hex
    have h0 : (exec ctr).2 = none := by
      have := hex 0 (by simp)
      simpa using this
    simp only [runCmds]
    cases hx : exec ctr with
    | mk out oe =>
      rw [hx] at h0
      simp at h0
      subst h0
      have := ih (ctr + 1) (fun j hj => by
        have := hex (j + 1) (by simpa using Nat.succ_lt_succ hj)
        simpa [Nat.add_assoc, Nat.add_comm 1 j] using this)
      simp [this]
      omega

theorem runCmds_fail (exec : Exec) (cmds : List (List String)) : ∀ ctr j e,
    j < cmds.length →
    (∀ i, i < j → (exec (ctr + i)).2 = none) →
    (exec (ctr + j)).2 = some e →
    runCmds exec ctr cmds =
      ⟨cmds.take (j + 1), ctr + j + 1, some (encodeOutputToError (exec (ctr + j)).1 e)⟩ := by
  induction cmds with
  | nil =>
    intro ctr j e hj _ _
    exact absurd hj (by simp)
  | cons c rest ih =>
    intro ctr j e hj hpre hfail
    cases j with
    | zero =>
      simp only [Nat.add_zero] at hfail ⊢
      simp only [runCmds]
      cases hx : exec ctr with
      | mk out oe =>
        rw [hx] at hfail
        simp only at hfail
        subst hfail
        simp [hx]
    | succ j =>
      have h0 : (exec ctr).2 = none := by
        have := hpre 0 (by omega)
        simpa using this
      simp only [runCmds]
      cases hx : exec ctr with
      | mk out oe =>
        rw [hx] at h0
        simp only at h0
        subst h0
        have harg : ctr + 1 + j = ctr + (j + 1) := by omega
        have hrec := ih (ctr + 1) j e (by simpa using Nat.lt_of_succ_lt_succ hj)
          (fun i hi => by
            have hp := hpre (i + 1) (by omega)
            have harg2 : ctr + 1 + i = ctr + (i + 1) := by omega
            rw [harg2]
            exact hp)
          (by rw [harg]; exact hfail)
        rw [hrec]
        simp only [harg, List.take_succ_cons]

/-! ### Relating the compiler loops to `runCmds` over the static plan -/

theorem runGlobal_eq_runCmds (exec : Exec) (tcs : List Tc)
    (hwf : ∀ tc ∈ tcs, wfTc tc) : ∀ index ctr,
    runGlobal exec index ctr tcs = runCmds exec ctr (globalCmdsFrom index tcs) := by
  induction tcs with
  | nil => intro index ctr; rfl
  | cons tc rest ih =>
    intro index ctr
    have htc : wfTc tc := hwf tc (by simp)
    have hrest : ∀ t ∈ rest, wfTc t := fun t ht => hwf t (by simp [ht])
    simp only [runGlobal, globalCmdsFrom, runCmds]
    rw [addTc_wf exec ctr htc]
    unfold runOne
    cases hx : exec ctr with
    | mk out oe =>
      cases oe with
      | some e => rfl
      | none => simp [ih hrest (index + 1) (ctr + 1)]

theorem runGroupRules_eq_runCmds (exec : Exec) (parent idx : Nat) (tcs : List Tc)
    (hwf : ∀ tc ∈ tcs, wfTc tc) : ∀ i ch ctr,
    (runGroupRules exec parent idx i ch ctr tcs).trace =
        (runCmds exec ctr (groupCmdsFrom parent idx i ch tcs)).trace
    ∧ (runGroupRules exec parent idx i ch ctr tcs).ctr =
        (runCmds exec ctr (groupCmdsFrom parent idx i ch tcs)).ctr
    ∧ (runGroupRules exec parent idx i ch ctr tcs).err =
        (runCmds exec ctr (groupCmdsFrom parent idx i ch tcs)).err
    ∧ ((runCmds exec ctr (groupCmdsFrom parent idx i ch tcs)).err = none →
        (runGroupRules exec parent idx i ch ctr tcs).handler = ch + tcs.length) := by
  induction tcs with
  | nil => intro i ch ctr; exact ⟨rfl, rfl, rfl, fun _ => rfl⟩
  | cons tc rest ih =>
    intro i ch ctr
    have htc : wfTc tc := hwf tc (by simp)
    have hrest : ∀ t ∈ rest, wfTc t := fun t ht => hwf t (by simp [ht])
    simp only [runGroupRules, groupCmdsFrom, runCmds]
    rw [addTc_wf exec ctr htc]
    unfold runOne
    cases hx : exec ctr with
    | mk out oe =>
      cases oe with
      | some e => exact ⟨rfl, rfl, rfl, fun h => by simp at h⟩
      | none =>
        have h2 := ih hrest (i + 1) (ch + 1) (ctr + 1)
        refine ⟨by simp [h2.1], by simp [h2.2.1], by simp [h2.2.2.1], fun h => ?_⟩
        simp only at h ⊢
        have := h2.2.2.2 (by simpa using h)
        rw [this]
        simp only [List.length_cons]
        omega

theorem runGroups_eq_runCmds (exec : Exec) (parent : Nat) (iter : List (String × List Tc))
    (hwf : ∀ p ∈ iter, ∀ tc ∈ p.2, wfTc tc) : ∀ index ch ctr,
    (runGroups exec parent index ch ctr iter).trace =
        (runCmds exec ctr (groupsCmds parent index ch iter)).trace
    ∧ (runGroups exec parent index ch ctr iter).ctr =
        (runCmds exec ctr (groupsCmds parent index ch iter)).ctr
    ∧ (runGroups exec parent index ch ctr iter).err =
        (runCmds exec ctr (groupsCmds parent index ch iter)).err
    ∧ ((runCmds exec ctr (groupsCmds parent index ch iter)).err = none →
        (runGroups exec parent index ch ctr iter).chains = groupsChains parent index iter) := by
  induction iter with
  | nil => intro index ch ctr; exact ⟨rfl, rfl, rfl, fun _ => rfl⟩
  | cons grp rest ih =>
    intro index ch ctr
    have hgrp : ∀ tc ∈ grp.2, wfTc tc := hwf grp (by simp)
    have hrest : ∀ p ∈ rest, ∀ tc ∈ p.2, wfTc tc := fun p hp => hwf p (by simp [hp])
    have hg := runGroupRules_eq_runCmds exec parent index grp.2 hgrp 0 ch ctr
    simp only [runGroups, groupsCmds]
    rw [runCmds_append]
    simp only
    cases herr : (runCmds exec ctr (groupCmdsFrom parent index 0 ch grp.2)).err with
    | some e =>
      rw [hg.2.2.1, herr]
      simp only
      refine ⟨hg.1, hg.2.1, ?_, ?_⟩ <;> simp
    | none =>
      rw [hg.2.2.1, herr]
      simp only
      have hhandler := hg.2.2.2 herr
      have hctr := hg.2.1
      rw [hhandler, hctr]
      have h2 := ih hrest (index + 1) (ch + grp.2.length)
        ((runCmds exec ctr (groupCmdsFrom parent index 0 ch grp.2)).ctr)
      refine ⟨by rw [hg.1, h2.1], by rw [h2.2.1], by rw [h2.2.2.1], fun h => ?_⟩
      rw [groupsChains]
      rw [h2.2.2.2 (by simpa using h)]

/-- With well-formed rules, one `SetContainerTcRules` call is: run the flush,
then run the static plan command by command until the first failure, then (on
full success) hand the chain descriptors to the iptables collaborator. -/
theorem SetContainerTcRules_eq_plan (exec : Exec) (ipt : List Chain → Option String)
    (tcs : List Tc) (iter : List (String × List Tc))
    (hwfG : ∀ tc ∈ (partitionTcs tcs).1, wfTc tc)
    (hwfF : ∀ p ∈ iter, ∀ tc ∈ p.2, wfTc tc) :
    SetContainerTcRules exec ipt tcs iter =
      match flush (exec 0) with
      | some e => ⟨[flushCmd], none, some e⟩
      | none =>
        let r := runCmds exec 1 (fullPlan tcs iter)
        match r.err with
        | some e => ⟨flushCmd :: r.trace, none, some e⟩
        | none =>
          ⟨flushCmd :: r.trace,
           some (groupsChains ((partitionTcs tcs).1.length + 1) 0 iter),
           ipt (groupsChains ((partitionTcs tcs).1.length + 1) 0 iter)⟩ := by
  unfold SetContainerTcRules
  cases flush (exec 0) with
  | some e => rfl
  | none =>
    simp only [fullPlan]
    rw [runCmds_append, runCmds_append]
    rw [runGlobal_eq_runCmds exec _ hwfG 0 1]
    simp only
    cases h1 : (runCmds exec 1 (globalCmdsFrom 0 (partitionTcs tcs).1)).err with
    | some e => simp [h1]
    | none =>
      simp only [h1]
      unfold addPrio
      cases h2 : (runCmds exec (runCmds exec 1 (globalCmdsFrom 0 (partitionTcs tcs).1)).ctr
          [prioCmd (partitionTcs tcs).1.length (3 + iter.length),
           sfqCmd (partitionTcs tcs).1.length 1, sfqCmd (partitionTcs tcs).1.length 2,
           sfqCmd (partitionTcs tcs).1.length 3]).err with
      | some e => simp [h2]
      | none =>
        simp only [h2]
        have hg := runGroups_eq_runCmds exec ((partitionTcs tcs).1.length + 1) iter hwfF 0
          ((partitionTcs tcs).1.length + 1 + 3)
          ((runCmds exec (runCmds exec 1 (globalCmdsFrom 0 (partitionTcs tcs).1)).ctr
            [prioCmd (partitionTcs tcs).1.length (3 + iter.length),
             sfqCmd (partitionTcs tcs).1.length 1, sfqCmd (partitionTcs tcs).1.length 2,
             sfqCmd (partitionTcs tcs).1.length 3]).ctr)
        cases h3 : (runCmds exec
            ((runCmds exec (runCmds exec 1 (globalCmdsFrom 0 (partitionTcs tcs).1)).ctr
              [prioCmd (partitionTcs tcs).1.length (3 + iter.length),
               sfqCmd (partitionTcs tcs).1.length 1, sfqCmd (partitionTcs tcs).1.length 2,
               sfqCmd (partitionTcs tcs).1.length 3]).ctr)
            (groupsCmds ((partitionTcs tcs).1.length + 1) 0
              ((partitionTcs tcs).1.length + 1 + 3) iter)).err with
        | some e =>
          rw [hg.2.2.1, h3]
          simp only
          rw [hg.1]
          simp [List.append_assoc]
        | none =>
          rw [hg.2.2.1, h3]
          simp only
          rw [hg.1, hg.2.2.2 h3]
          simp [List.append_assoc]

theorem flush_of_success {r : String × Option String} (h : r.2 = none) : flush r = none := by
  cases r with
  | mk out oe =>
    simp only at h
    subst h
    rfl

/-- Closed form of a fully successful compilation. -/
theorem SetContainerTcRules_ok (exec : Exec) (ipt : List Chain → Option String)
    (tcs : List Tc) (iter : List (String × List Tc))
    (hwfG : ∀ tc ∈ (partitionTcs tcs).1, wfTc tc)
    (hwfF : ∀ p ∈ iter, ∀ tc ∈ p.2, wfTc tc)
    (hex : ∀ k, (exec k).2 = none) :
    SetContainerTcRules exec ipt tcs iter =
      ⟨flushCmd :: fullPlan tcs iter,
       some (groupsChains ((partitionTcs tcs).1.length + 1) 0 iter),
       ipt (groupsChains ((partitionTcs tcs).1.length + 1) 0 iter)⟩ := by
  rw [SetContainerTcRules_eq_plan exec ipt tcs iter hwfG hwfF]
  rw [flush_of_success (hex 0)]
  rw [runCmds_ok exec (fullPlan tcs iter) 1 (fun j _ => hex (1 + j))]

/-- The chain node the claim describes for global rule `i`: parent `root` for
the first rule, otherwise `i:`, with handle `i+1:`. -/
def globalChainNodeCmd (i : Nat) (tc : Tc) : List String :=
  tcCmdOf (if i = 0 then ["root"] else ["parent", natFmt i ++ ":"])
    (["handle", natFmt (i + 1) ++ ":"]) tc

theorem globalCmdsFrom_eq_rangeMap (tcs : List Tc) : ∀ i,
    globalCmdsFrom i tcs =
      (List.range tcs.length).map (fun j => globalChainNodeCmd (i + j) (tcs.getD j default)) := by
  induction tcs with
  | nil => intro i; rfl
  | cons tc rest ih =>
    intro i
    simp only [globalCmdsFrom, List.length_cons, List.range_succ_eq_map, List.map_cons,
      List.map_map]
    rw [List.cons_eq_cons]
    constructor
    · unfold globalChainNodeCmd
      have : (0 < i) = ¬(i + 0 = 0) := by
        simp only [Nat.add_zero, eq_iff_iff]
        omega
      simp only [Nat.add_zero, List.getD_cons_zero]
      by_cases h : i = 0
      · simp [h]
      · have h2 : 0 < i := by omega
        simp [h, h2]
    · rw [ih (i + 1)]
      apply List.map_congr_left
      intro j hj
      simp only [Function.comp_apply, List.getD_cons_succ]
      have : i + 1 + j = i + (j + 1) := by omega
      rw [this]

theorem take_append_length {α : Type} (a b : List α) (n : Nat) (h : a.length = n) :
    (a ++ b).take n = a := by
  subst h
  exact List.take_left a b

theorem drop_append_length {α : Type} (a b : List α) (n : Nat) (h : a.length = n) :
    (a ++ b).drop n = b := by
  subst h
  exact List.drop_left a b

/-- Default token for list lookups. -/
def noTok : String := ""

theorem tcCmdOf_getD (a b c d : String) {tc : Tc} (h : wfTc tc) :
    (tcCmdOf [a, b] [c, d] tc).getD 5 noTok = b
    ∧ (tcCmdOf [a, b] [c, d] tc).getD 7 noTok = d := by
  unfold tcCmdOf addTcCmd
  rcases h with ⟨h0, hn⟩ | ⟨h1, hb⟩
  · cases hnm : tc.netem with
    | none => exact absurd hnm hn
    | some n =>
      rw [h0]
      simp only [Tc_NETEM, Tc_BANDWIDTH]
      norm_num
      exact ⟨rfl, rfl⟩
  · cases htb : tc.tbf with
    | none => exact absurd htb hb
    | some t =>
      rw [h1]
      simp only [Tc_NETEM, Tc_BANDWIDTH]
      norm_num
      exact ⟨rfl, rfl⟩

/-- Number of filtered rules in the first `j` iterated groups: the trace
position of group `j`'s first command inside the filtered segment. -/
def offsetUpTo (iter : List (String × List Tc)) (j : Nat) : Nat :=
  ((iter.take j).map (fun p => p.2.length)).sum

theorem groupCmdsFrom_handle_map (parent idx : Nat) (tcs : List Tc)
    (hwf : ∀ tc ∈ tcs, wfTc tc) : ∀ i ch,
    (groupCmdsFrom parent idx i ch tcs).map (fun c => c.getD 7 noTok)
      = (List.range tcs.length).map (fun j => natFmt (ch + 1 + j) ++ ":") := by
  induction tcs with
  | nil => intro i ch; rfl
  | cons tc rest ih =>
    intro i ch
    have htc : wfTc tc := hwf tc (by simp)
    have hrest : ∀ t ∈ rest, wfTc t := fun t ht => hwf t (by simp [ht])
    simp only [groupCmdsFrom, List.map_cons, List.length_cons, List.range_succ_eq_map,
      List.map_map]
    rw [List.cons_eq_cons]
    constructor
    · by_cases h : 0 < i
      · simp only [h, if_pos]
        have h7 := (tcCmdOf_getD ("parent") (natFmt ch ++ ":")
          ("handle") (natFmt (ch + 1) ++ ":") htc).2
        simpa [List.getD] using h7
      · simp only [h, if_neg]
        have h7 := (tcCmdOf_getD ("parent") (natFmt parent ++ ":" ++ natFmt (idx + 4))
          ("handle") (natFmt (ch + 1) ++ ":") htc).2
        simpa [List.getD] using h7
    · rw [ih hrest (i + 1) (ch + 1)]
      apply List.map_congr_left
      intro j hj
      simp only [Function.comp_apply]
      have : ch + 1 + 1 + j = ch + 1 + (j + 1) := by omega
      rw [this]

theorem groupsCmds_handle_map (parent : Nat) (iter : List (String × List Tc))
    (hwf : ∀ p ∈ iter, ∀ tc ∈ p.2, wfTc tc) : ∀ index ch,
    (groupsCmds parent index ch iter).map (fun c => c.getD 7 noTok)
      = (List.range (groupsSize iter)).map (fun j => natFmt (ch + 1 + j) ++ ":") := by
  induction iter with
  | nil => intro index ch; rfl
  | cons grp rest ih =>
    intro index ch
    have hgrp : ∀ tc ∈ grp.2, wfTc tc := hwf grp (by simp)
    have hrest : ∀ p ∈ rest, ∀ tc ∈ p.2, wfTc tc := fun p hp => hwf p (by simp [hp])
    simp only [groupsCmds, List.map_append, groupCmdsFrom_handle_map parent index grp.2 hgrp,
      ih hrest (index + 1) (ch + grp.2.length), groupsSize, List.map_cons, List.sum_cons]
    rw [List.range_add, List.map_append, List.map_map]
    congr 1
    apply List.map_congr_left
    intro j hj
    simp only [Function.comp_apply]
    have : ch + grp.2.length + 1 + j = ch + 1 + (grp.2.length + j) := by omega
    rw [this]

theorem groupsCmds_first_parent (parent : Nat) (iter : List (String × List Tc))
    (hwf : ∀ p ∈ iter, ∀ tc ∈ p.2, wfTc tc) (hne : ∀ p ∈ iter, p.2 ≠ []) : ∀ index ch j,
    j < iter.length →
    ((groupsCmds parent index ch iter).getD (offsetUpTo iter j) []).getD 5 noTok
      = natFmt parent ++ ":" ++ natFmt (index + j + 4) := by
  induction iter with
  | nil => intro index ch j hj; exact absurd hj (by simp)
  | cons grp rest ih =>
    intro index ch j hj
    have hgrp : ∀ tc ∈ grp.2, wfTc tc := hwf grp (by simp)
    have hrest : ∀ p ∈ rest, ∀ tc ∈ p.2, wfTc tc := fun p hp => hwf p (by simp [hp])
    have hne2 : ∀ p ∈ rest, p.2 ≠ [] := fun p hp => hne p (by simp [hp])
    cases j with
    | zero =>
      have hoff : offsetUpTo (grp :: rest) 0 = 0 := rfl
      rw [hoff]
      cases hg2 : grp.2 with
      | nil => exact absurd hg2 (hne grp (by simp))
      | cons tc more =>
        have htc : wfTc tc := hgrp tc (by simp [hg2])
        simp only [groupsCmds, hg2, groupCmdsFrom]
        simp only [List.append_eq, List.cons_append, List.getD_cons_zero]
        simp only [Nat.lt_irrefl, if_neg, Nat.not_lt_zero, if_false]
        have := (tcCmdOf_getD ("parent") (natFmt parent ++ ":" ++ natFmt (index + 4))
          ("handle") (natFmt (ch + 1) ++ ":") htc).1
        simpa using this
    | succ j =>
      have hoff : offsetUpTo (grp :: rest) (j + 1) = grp.2.length + offsetUpTo rest j := by
        simp [offsetUpTo, List.take_succ_cons]
      rw [hoff]
      simp only [groupsCmds]
      rw [List.getD_append_right _ _ _ _ (by simp [groupCmdsFrom_length])]
      simp only [groupCmdsFrom_length]
      have harg : grp.2.length + offsetUpTo rest j - grp.2.length = offsetUpTo rest j := by omega
      rw [harg]
      rw [ih hrest hne2 (index + 1) (ch + grp.2.length) j (by simpa using Nat.lt_of_succ_lt_succ hj)]
      have : index + 1 + j + 4 = index + (j + 1) + 4 := by omega
      rw [this]

theorem groupsChains_target_map (parent : Nat) (iter : List (String × List Tc)) : ∀ index,
    (groupsChains parent index iter).map (fun c => c.target)
      = (List.range iter.length).map
          (fun j => "CLASSIFY --set-class " ++ natFmt parent ++ ":" ++ natFmt (index + j + 4)) := by
  induction iter with
  | nil => intro index; rfl
  | cons grp rest ih =>
    intro index
    simp only [groupsChains, List.map_cons, List.length_cons, List.range_succ_eq_map,
      List.map_map]
    rw [List.cons_eq_cons]
    constructor
    · simp
    · rw [ih (index + 1)]
      apply List.map_congr_left
      intro j hj
      simp only [Function.comp_apply]
      have : index + 1 + j + 4 = index + (j + 1) + 4 := by omega
      rw [this]

/-! ### Keyword occurrence in the netem encoding -/

theorem delay_mem_iff (n : Netem) : ("delay" ∈ convertNetemToArgs n) ↔ 0 < n.time := by
  simp [convertNetemToArgs, List.mem_append, mem_delayPart_iff, mem_jitterPart_iff,
    mem_reorderPart_iff, mem_gapPart_iff, mem_limitPart_iff, mem_lossPart_iff,
    mem_duplicatePart_iff, mem_corruptPart_iff,
    eq_natFmt_iff_false ("delay") (by decide), eq_ratFmt_iff_false ("delay") (by decide)]

theorem reorder_mem_iff (n : Netem) :
    ("reorder" ∈ convertNetemToArgs n) ↔ 0 < n.time ∧ 0 < n.reorder := by
  simp [convertNetemToArgs, List.mem_append, mem_delayPart_iff, mem_jitterPart_iff,
    mem_reorderPart_iff, mem_gapPart_iff, mem_limitPart_iff, mem_lossPart_iff,
    mem_duplicatePart_iff, mem_corruptPart_iff,
    eq_natFmt_iff_false ("reorder") (by decide), eq_ratFmt_iff_false ("reorder") (by decide)]

theorem gap_mem_iff (n : Netem) :
    ("gap" ∈ convertNetemToArgs n) ↔ 0 < n.time ∧ 0 < n.reorder ∧ 0 < n.gap := by
  simp [convertNetemToArgs, List.mem_append, mem_delayPart_iff, mem_jitterPart_iff,
    mem_reorderPart_iff, mem_gapPart_iff, mem_limitPart_iff, mem_lossPart_iff,
    mem_duplicatePart_iff, mem_corruptPart_iff,
    eq_natFmt_iff_false ("gap") (by decide), eq_ratFmt_iff_false ("gap") (by decide)]

theorem limit_mem_iff (n : Netem) : ("limit" ∈ convertNetemToArgs n) ↔ 0 < n.limit := by
  simp [convertNetemToArgs, List.mem_append, mem_delayPart_iff, mem_jitterPart_iff,
    mem_reorderPart_iff, mem_gapPart_iff, mem_limitPart_iff, mem_lossPart_iff,
    mem_duplicatePart_iff, mem_corruptPart_iff,
    eq_natFmt_iff_false ("limit") (by decide), eq_ratFmt_iff_false ("limit") (by decide)]

theorem loss_mem_iff (n : Netem) : ("loss" ∈ convertNetemToArgs n) ↔ 0 < n.loss := by
  simp [convertNetemToArgs, List.mem_append, mem_delayPart_iff, mem_jitterPart_iff,
    mem_reorderPart_iff, mem_gapPart_iff, mem_limitPart_iff, mem_lossPart_iff,
    mem_duplicatePart_iff, mem_corruptPart_iff,
    eq_natFmt_iff_false ("loss") (by decide), eq_ratFmt_iff_false ("loss") (by decide)]

theorem duplicate_mem_iff (n : Netem) :
    ("duplicate" ∈ convertNetemToArgs n) ↔ 0 < n.duplicate := by
  simp [convertNetemToArgs, List.mem_append, mem_delayPart_iff, mem_jitterPart_iff,
    mem_reorderPart_iff, mem_gapPart_iff, mem_limitPart_iff, mem_lossPart_iff,
    mem_duplicatePart_iff, mem_corruptPart_iff,
    eq_natFmt_iff_false ("duplicate") (by decide), eq_ratFmt_iff_false ("duplicate") (by decide)]

theorem corrupt_mem_iff (n : Netem) :
    ("corrupt" ∈ convertNetemToArgs n) ↔ 0 < n.corrupt := by
  simp [convertNetemToArgs, List.mem_append, mem_delayPart_iff, mem_jitterPart_iff,
    mem_reorderPart_iff, mem_gapPart_iff, mem_limitPart_iff, mem_lossPart_iff,
    mem_duplicatePart_iff, mem_corruptPart_iff,
    eq_natFmt_iff_false ("corrupt") (by decide), eq_ratFmt_iff_false ("corrupt") (by decide)]

/-! ### Claim theorems for the argument codec and the qdisc builder -/

/-- Claim C6: in the netem argument encoding every keyword-carrying sub-field
with value ≤ 0 is omitted, and the reorder field (with its correlation and gap
sub-fields) is emitted only when delay > 0; a payload with only delay=50000
encodes to `["delay","50000"]`, adding jitter=10 gives
`["delay","50000","10"]`, and reorder=0.5 with no delay encodes to the empty
token list — in particular no `"reorder"` token. -/
theorem netem_args_spec :
    (∀ n : Netem,
      (("delay" ∈ convertNetemToArgs n) ↔ 0 < n.time)
      ∧ (("reorder" ∈ convertNetemToArgs n) ↔ 0 < n.time ∧ 0 < n.reorder)
      ∧ (("gap" ∈ convertNetemToArgs n) ↔ 0 < n.time ∧ 0 < n.reorder ∧ 0 < n.gap)
      ∧ (("limit" ∈ convertNetemToArgs n) ↔ 0 < n.limit)
      ∧ (("loss" ∈ convertNetemToArgs n) ↔ 0 < n.loss)
      ∧ (("duplicate" ∈ convertNetemToArgs n) ↔ 0 < n.duplicate)
      ∧ (("corrupt" ∈ convertNetemToArgs n) ↔ 0 < n.corrupt))
    ∧ convertNetemToArgs { Netem.zero with time := 50000 } = ["delay", "50000"]
    ∧ convertNetemToArgs { Netem.zero with time := 50000, jitter := 10 }
        = ["delay", "50000", "10"]
    ∧ convertNetemToArgs { Netem.zero with reorder := (1 : Rat) / 2 } = [] := by
  refine ⟨fun n => ⟨delay_mem_iff n, reorder_mem_iff n, gap_mem_iff n, limit_mem_iff n,
    loss_mem_iff n, duplicate_mem_iff n, corrupt_mem_iff n⟩, ?_, ?_, ?_⟩
  · decide
  · decide
  · decide

/-- Claim C9: the bandwidth encoding always begins with
`rate <r> burst <b>` (also for zero values), appends `limit <n>` exactly when
the queue limit is positive, and appends `peakrate <p> mtu <m>` exactly when
the peak rate is positive, with the mtu value taken from the minimum-burst
field. -/
theorem tbf_args_spec : ∀ t : Tbf,
    (convertTbfToArgs t).take 4 = ["rate", natFmt t.rate, "burst", natFmt t.buffer]
    ∧ (("limit" ∈ convertTbfToArgs t) ↔ 0 < t.limit)
    ∧ (("peakrate" ∈ convertTbfToArgs t) ↔ 0 < t.peakRate)
    ∧ (("mtu" ∈ convertTbfToArgs t) ↔ 0 < t.peakRate)
    ∧ (0 < t.peakRate →
        (convertTbfToArgs t).drop ((convertTbfToArgs t).length - 4)
          = ["peakrate", natFmt t.peakRate, "mtu", natFmt t.minBurst]) := by
  intro t
  refine ⟨?_, ?_, ?_, ?_, ?_⟩
  · unfold convertTbfToArgs
    rfl
  · unfold convertTbfToArgs
    split_ifs <;> simp_all [eq_natFmt_iff_false ("limit") (by decide)]
  · unfold convertTbfToArgs
    split_ifs <;> simp_all [eq_natFmt_iff_false ("peakrate") (by decide)]
  · unfold convertTbfToArgs
    split_ifs <;> simp_all [eq_natFmt_iff_false ("mtu") (by decide)]
  · intro hpk
    unfold convertTbfToArgs
    by_cases hl : 0 < t.limit <;> simp [hl, hpk]

/-- Claim C9 witness: the properties at a concrete payload with every optional
field set. -/
theorem tbf_args_spec_witness :
    (convertTbfToArgs ⟨1000, 5, 10000, 2000, 1600⟩).take 4
        = ["rate", natFmt 1000, "burst", natFmt 10000]
    ∧ (convertTbfToArgs ⟨1000, 5, 10000, 2000, 1600⟩).drop
          ((convertTbfToArgs ⟨1000, 5, 10000, 2000, 1600⟩).length - 4)
        = ["peakrate", natFmt 2000, "mtu", natFmt 1600] :=
  ⟨(tbf_args_spec ⟨1000, 5, 10000, 2000, 1600⟩).1,
   (tbf_args_spec ⟨1000, 5, 10000, 2000, 1600⟩).2.2.2.2 (by decide)⟩

/-- Claim C10: `generateQdiscArgs` fails exactly when the qdisc is nil or its
type is empty; a nil parent and parent (1,0) render identically (as the single
token `root`), and a nil handle renders as `handle 1:0`. -/
theorem generateQdiscArgs_spec :
    (∀ a : String, generateQdiscArgs a none = Except.error ("qdisc is required"))
    ∧ (∀ (a : String) (qd : Qdisc),
        isErr (generateQdiscArgs a (some qd)) = decide (qd.qdiscType = ""))
    ∧ (∀ (a : String) (hd : Option TcHandle) (ty : String) (ar : List String),
        generateQdiscArgs a (some ⟨none, hd, ty, ar⟩)
          = generateQdiscArgs a (some ⟨some ⟨1, 0⟩, hd, ty, ar⟩))
    ∧ (∀ (a : String) (p : Option TcHandle) (ty : String) (ar : List String),
        generateQdiscArgs a (some ⟨p, none, ty, ar⟩)
          = generateQdiscArgs a (some ⟨p, some ⟨1, 0⟩, ty, ar⟩))
    ∧ generateQdiscArgs ("add") (some ⟨none, none, "netem", []⟩)
        = Except.ok ["qdisc", "add", "dev", "eth0", "root", "handle", "1:0", "netem"] := by
  refine ⟨fun a => rfl, ?_, ?_, ?_, rfl⟩
  · intro a qd
    unfold generateQdiscArgs
    by_cases hty : qd.qdiscType = "" <;> simp [hty, isErr]
  · intro a hd ty ar
    unfold generateQdiscArgs
    simp
  · intro a p ty ar
    unfold generateQdiscArgs
    simp

/-! ### Concrete scenario: the worked example of the source's doc comment
(two unfiltered netem rules, then one rule filtered on ipset A and one on
ipset B). -/

/-- A runner whose every invocation succeeds with empty output. -/
def execOk : Exec := fun _ => ("", none)

/-- An iptables collaborator that always succeeds. -/
def iptOk : List Chain → Option String := fun _ => none

/-- A netem payload with only the delay set. -/
def netemDelay (d : Nat) : Netem := { Netem.zero with time := d }

/-- A NETEM rule with the given ipset filter (empty = global) and delay. -/
def demoRule (ips : String) (d : Nat) : Tc := ⟨Tc_NETEM, ips, some (netemDelay d), none⟩

/-- The four rules of the worked example in the source's comment. -/
def demoTcs : List Tc :=
  [demoRule ("") 50000, demoRule ("") 100000, demoRule ("A") 50000, demoRule ("B") 100000]

/-- The `filterTc` entries of `demoTcs` in first-seen order. -/
def demoIterAB : List (String × List Tc) :=
  [("A", [demoRule ("A") 50000]), ("B", [demoRule ("B") 100000])]

/-- The same entries in the reversed order, which the Go map may equally well
produce. -/
def demoIterBA : List (String × List Tc) :=
  [("B", [demoRule ("B") 100000]), ("A", [demoRule ("A") 50000])]

/-- Claim C1 (code-bug evidence): `filterTc` is ranged over as a Go map, whose
iteration order is unspecified, so the chain descriptors do not reliably
follow first-seen order.  Here the sets are first seen in the order A, B, yet
under the legal iteration order (B, A) the compiler emits `TC-TABLES-0` for B
— against the claim and against the worked example documented in the source
comment, which promises `TC-TABLES-0` for A. -/
theorem tcTables_order_not_first_seen :
    List.Perm demoIterBA (partitionTcs demoTcs).2
    ∧ (partitionTcs demoTcs).2.map Prod.fst = ["A", "B"]
    ∧ (SetContainerTcRules execOk iptOk demoTcs demoIterBA).chains
        = some [⟨"TC-TABLES-0", "OUTPUT", ["B"], "CLASSIFY --set-class 3:4"⟩,
                ⟨"TC-TABLES-1", "OUTPUT", ["A"], "CLASSIFY --set-class 3:5"⟩]
    ∧ (SetContainerTcRules execOk iptOk demoTcs demoIterAB).chains
        = some [⟨"TC-TABLES-0", "OUTPUT", ["A"], "CLASSIFY --set-class 3:4"⟩,
                ⟨"TC-TABLES-1", "OUTPUT", ["B"], "CLASSIFY --set-class 3:5"⟩] := by
  refine ⟨by decide, by decide, by decide, by decide⟩

/-- Claim C2 (code-bug evidence): `flush` only forgives a failure whose output
contains `RULE_NOT_EXIST` (the `RTNETLINK answers: No such file or directory`
variant); a failure printing the other documented variant
`Cannot delete qdisc with handle of zero.` — for which the source declares the
(unused) constant `ruleNotExist` — is returned as an error, against the claim.
A success and an unrelated failure behave as claimed. -/
theorem flush_single_pattern_only :
    flush (ruleNotExistLowerVersion, some ("exit status 2")) = none
    ∧ flush (ruleNotExist, some ("exit status 2")) = some ("exit status 2")
    ∧ flush (("some other failure"), some ("exit status 1")) = some ("exit status 1")
    ∧ flush (("deleted"), none) = none := by
  refine ⟨by decide, by decide, by decide, by decide⟩

/-! ### Claim C8: `addTc` dispatch and error behaviour -/

theorem runOne_ok (exec : Exec) (ctr : Nat) (cmd : List String)
    (h : (exec ctr).2 = none) : runOne exec ctr cmd = ⟨[cmd], ctr + 1, none⟩ := by
  unfold runOne
  cases hx : exec ctr with
  | mk out oe =>
    rw [hx] at h
    simp only at h
    subst h
    rfl

/-- Claim C8: when the runner succeeds, `addTc` returns an error exactly when
the rule's type is neither NETEM nor BANDWIDTH, or the matching payload is
nil; for a well-formed rule it delegates to `addTbf`/`addNetem` and returns
that operation's result. -/
theorem addTc_spec (exec : Exec) (ctr : Nat) (pt ht : List String) (tc : Tc)
    (hex : ∀ k, (exec k).2 = none) :
    (((addTc exec ctr pt ht tc).err ≠ none) ↔
      ((tc.tcType ≠ Tc_NETEM ∧ tc.tcType ≠ Tc_BANDWIDTH)
        ∨ (tc.tcType = Tc_BANDWIDTH ∧ tc.tbf = none)
        ∨ (tc.tcType = Tc_NETEM ∧ tc.netem = none)))
    ∧ (tc.tcType = Tc_BANDWIDTH → tc.tbf ≠ none →
        addTc exec ctr pt ht tc = addTbf exec ctr pt ht (tc.tbf.getD default))
    ∧ (tc.tcType = Tc_NETEM → tc.netem ≠ none →
        addTc exec ctr pt ht tc = addNetem exec ctr pt ht (tc.netem.getD default)) := by
  refine ⟨?_, ?_, ?_⟩
  · unfold addTc
    by_cases hb : tc.tcType = Tc_BANDWIDTH
    · cases htb : tc.tbf with
      | none => simp [hb, htb, Tc_NETEM, Tc_BANDWIDTH]
      | some t =>
        simp [hb, htb, Tc_NETEM, Tc_BANDWIDTH, addTbf, runOne_ok exec ctr _ (hex ctr)]
    · by_cases hn : tc.tcType = Tc_NETEM
      · cases hnm : tc.netem with
        | none => simp [hb, hn, hnm, Tc_NETEM, Tc_BANDWIDTH]
        | some nm =>
          simp [hb, hn, hnm, Tc_NETEM, Tc_BANDWIDTH, addNetem,
            runOne_ok exec ctr _ (hex ctr)]
      · simp [hb, hn]
  · intro hb htb
    cases htb2 : tc.tbf with
    | none => exact absurd htb2 htb
    | some t => simp [addTc, hb, htb2]
  · intro hn hnm
    cases hnm2 : tc.netem with
    | none => exact absurd hnm2 hnm
    | some nm =>
      have hb : ¬tc.tcType = Tc_BANDWIDTH := by
        rw [hn]
        decide
      simp [addTc, hn, hb, hnm2, Tc_NETEM, Tc_BANDWIDTH]

/-- Claim C8 witness: the dispatch at concrete rules — an unknown type errors,
a BANDWIDTH rule with a payload delegates to `addTbf`, a NETEM rule with a nil
payload errors. -/
theorem addTc_spec_witness :
    (addTc execOk 0 ["root"] ["handle", "1:"] ⟨7, "", none, none⟩).err.isSome = true
    ∧ addTc execOk 0 ["root"] ["handle", "1:"] ⟨Tc_BANDWIDTH, "", none, some ⟨1, 2, 3, 4, 5⟩⟩
        = addTbf execOk 0 ["root"] ["handle", "1:"] ⟨1, 2, 3, 4, 5⟩
    ∧ (addTc execOk 0 ["root"] ["handle", "1:"] ⟨Tc_NETEM, "", none, none⟩).err.isSome = true :=
  ⟨Option.isSome_iff_ne_none.mpr
     ((addTc_spec execOk 0 ["root"] ["handle", "1:"] ⟨7, "", none, none⟩
        (fun _ => rfl)).1.mpr (by decide)),
   (addTc_spec execOk 0 ["root"] ["handle", "1:"] ⟨Tc_BANDWIDTH, "", none, some ⟨1, 2, 3, 4, 5⟩⟩
      (fun _ => rfl)).2.1 rfl (by decide),
   Option.isSome_iff_ne_none.mpr
     ((addTc_spec execOk 0 ["root"] ["handle", "1:"] ⟨Tc_NETEM, "", none, none⟩
        (fun _ => rfl)).1.mpr (by decide))⟩

/-! ### Claim theorems about the compiled qdisc layout -/

/-- Claim C3: with a successful runner, the compilation (after the flush)
starts with one qdisc-add per global rule in input order, node 0 parented at
root with handle `1:` and node `i > 0` parented at `i:` with handle `i+1:`
(so the global handles are exactly `1..g` in order). -/
theorem global_chain_layout (exec : Exec) (ipt : List Chain → Option String)
    (tcs : List Tc) (iter : List (String × List Tc))
    (hwfG : ∀ tc ∈ (partitionTcs tcs).1, wfTc tc)
    (hwfF : ∀ p ∈ iter, ∀ tc ∈ p.2, wfTc tc)
    (hex : ∀ k, (exec k).2 = none) :
    (SetContainerTcRules exec ipt tcs iter).trace.take ((partitionTcs tcs).1.length + 1)
      = flushCmd :: (List.range (partitionTcs tcs).1.length).map
          (fun i => globalChainNodeCmd i ((partitionTcs tcs).1.getD i default)) := by
  rw [SetContainerTcRules_ok exec ipt tcs iter hwfG hwfF hex]
  simp only [fullPlan, List.take_succ_cons]
  rw [List.append_assoc]
  rw [take_append_length _ _ _ (globalCmdsFrom_length (partitionTcs tcs).1 0)]
  rw [globalCmdsFrom_eq_rangeMap (partitionTcs tcs).1 0]
  simp

/-- Claim C4: with a successful runner, the four commands right after the
global chain install the priority multiplexer — parent root if `g = 0` and
`g:` otherwise, handle `g+1:`, `3 + k` bands, the fixed priomap — and the
three sfq leaves with handles `g+2`, `g+3`, `g+4` parented at bands
`(g+1):1..3`. -/
theorem prio_layout (exec : Exec) (ipt : List Chain → Option String)
    (tcs : List Tc) (iter : List (String × List Tc))
    (hwfG : ∀ tc ∈ (partitionTcs tcs).1, wfTc tc)
    (hwfF : ∀ p ∈ iter, ∀ tc ∈ p.2, wfTc tc)
    (hperm : List.Perm iter (partitionTcs tcs).2)
    (hex : ∀ k, (exec k).2 = none) :
    ((SetContainerTcRules exec ipt tcs iter).trace.drop
        ((partitionTcs tcs).1.length + 1)).take 4
      = [["qdisc", "add", "dev", "eth0"]
           ++ (if (partitionTcs tcs).1.length = 0 then ["root"]
               else ["parent", natFmt (partitionTcs tcs).1.length ++ ":"])
           ++ ["handle", natFmt ((partitionTcs tcs).1.length + 1) ++ ":", "prio", "bands",
               natFmt (3 + (partitionTcs tcs).2.length), "priomap",
               "1", "2", "2", "2", "1", "2", "0", "0", "1", "1", "1", "1", "1", "1", "1", "1"],
         ["qdisc", "add", "dev", "eth0", "parent",
            natFmt ((partitionTcs tcs).1.length + 1) ++ ":" ++ natFmt 1,
            "handle", natFmt ((partitionTcs tcs).1.length + 2) ++ ":", "sfq"],
         ["qdisc", "add", "dev", "eth0", "parent",
            natFmt ((partitionTcs tcs).1.length + 1) ++ ":" ++ natFmt 2,
            "handle", natFmt ((partitionTcs tcs).1.length + 3) ++ ":", "sfq"],
         ["qdisc", "add", "dev", "eth0", "parent",
            natFmt ((partitionTcs tcs).1.length + 1) ++ ":" ++ natFmt 3,
            "handle", natFmt ((partitionTcs tcs).1.length + 4) ++ ":", "sfq"]] := by
  rw [SetContainerTcRules_ok exec ipt tcs iter hwfG hwfF hex]
  simp only [fullPlan, List.drop_succ_cons]
  rw [List.append_assoc]
  rw [drop_append_length _ _ _ (globalCmdsFrom_length (partitionTcs tcs).1 0)]
  rw [hperm.length_eq]
  simp only [List.cons_append, List.nil_append, List.take_succ_cons, List.take_zero]
  rw [prioCmd, sfqCmd, sfqCmd, sfqCmd]
  have h2 : (partitionTcs tcs).1.length + 1 + 1 = (partitionTcs tcs).1.length + 2 := by omega
  have h3 : (partitionTcs tcs).1.length + 1 + 2 = (partitionTcs tcs).1.length + 3 := by omega
  have h4 : (partitionTcs tcs).1.length + 1 + 3 = (partitionTcs tcs).1.length + 4 := by omega
  rw [h2, h3, h4]
  by_cases hg : (partitionTcs tcs).1.length = 0
  · simp [hg]
  · have hg2 : 0 < (partitionTcs tcs).1.length := by omega
    simp [hg, hg2]

/-- Claim C5: with a successful runner, the filtered-group commands after the
multiplexer receive the consecutive handles `g+5, g+6, …` (strictly greater
than `g+4`, strictly increasing, no duplicates, one per rule in processing
order); the first command of the group at position `j` is parented at band
`(g+1):(j+4)`; and the chain descriptor of that group targets
`CLASSIFY --set-class (g+1):(j+4)`. -/
theorem filtered_groups_layout (exec : Exec) (ipt : List Chain → Option String)
    (tcs : List Tc) (iter : List (String × List Tc))
    (hwfG : ∀ tc ∈ (partitionTcs tcs).1, wfTc tc)
    (hwfF : ∀ p ∈ iter, ∀ tc ∈ p.2, wfTc tc)
    (hne : ∀ p ∈ iter, p.2 ≠ [])
    (hex : ∀ k, (exec k).2 = none) :
    ((SetContainerTcRules exec ipt tcs iter).trace.drop
        ((partitionTcs tcs).1.length + 5)).map (fun c => c.getD 7 noTok)
      = (List.range (groupsSize iter)).map
          (fun j => natFmt ((partitionTcs tcs).1.length + 5 + j) ++ ":")
    ∧ (List.range iter.length).map (fun j =>
          (((SetContainerTcRules exec ipt tcs iter).trace.drop
              ((partitionTcs tcs).1.length + 5)).getD (offsetUpTo iter j) []).getD 5 noTok)
      = (List.range iter.length).map (fun j =>
          natFmt ((partitionTcs tcs).1.length + 1) ++ ":" ++ natFmt (j + 4))
    ∧ ((SetContainerTcRules exec ipt tcs iter).chains.getD []).map (fun c => c.target)
      = (List.range iter.length).map (fun j =>
          "CLASSIFY --set-class " ++ natFmt ((partitionTcs tcs).1.length + 1) ++ ":"
            ++ natFmt (j + 4))
    ∧ (SetContainerTcRules exec ipt tcs iter).chains.isSome = true := by
  rw [SetContainerTcRules_ok exec ipt tcs iter hwfG hwfF hex]
  have hd : ∀ X : List (List String),
      (flushCmd :: X).drop ((partitionTcs tcs).1.length + 5)
        = X.drop ((partitionTcs tcs).1.length + 4) := by
    intro X
    have : (partitionTcs tcs).1.length + 5 = ((partitionTcs tcs).1.length + 4) + 1 := by omega
    rw [this, List.drop_succ_cons]
  refine ⟨?_, ?_, ?_, rfl⟩
  · simp only [fullPlan, hd]
    rw [drop_append_length _ _ _ (by
      simp [List.length_append, globalCmdsFrom_length])]
    rw [groupsCmds_handle_map ((partitionTcs tcs).1.length + 1) iter hwfF 0
      ((partitionTcs tcs).1.length + 1 + 3)]
  · apply List.map_congr_left
    intro j hj
    simp only [List.mem_range] at hj
    simp only [fullPlan, hd]
    rw [drop_append_length _ _ _ (by
      simp [List.length_append, globalCmdsFrom_length])]
    rw [groupsCmds_first_parent ((partitionTcs tcs).1.length + 1) iter hwfF hne 0
      ((partitionTcs tcs).1.length + 1 + 3) j hj]
    have : 0 + j + 4 = j + 4 := by omega
    rw [this]
  · simp only [Option.getD_some]
    rw [groupsChains_target_map ((partitionTcs tcs).1.length + 1) iter 0]
    apply List.map_congr_left
    intro j hj
    have : 0 + j + 4 = j + 4 := by omega
    rw [this]

/-- Claim C7: if the runner fails at invocation `n ≥ 1` (a qdisc-add; the
flush is invocation 0) after succeeding on everything before, the compiler's
trace is exactly the first `n` planned commands plus the failing one, the
returned error is that operation's wrapped error, and the chain descriptors
are never handed to the iptables collaborator — no later operation is
attempted and nothing is rolled back. -/
theorem abort_on_first_failure (exec : Exec) (ipt : List Chain → Option String)
    (tcs : List Tc) (iter : List (String × List Tc))
    (hwfG : ∀ tc ∈ (partitionTcs tcs).1, wfTc tc)
    (hwfF : ∀ p ∈ iter, ∀ tc ∈ p.2, wfTc tc)
    (n : Nat) (e : String)
    (hn1 : 1 ≤ n) (hlt : n ≤ (fullPlan tcs iter).length)
    (hpre : ∀ j, j < n → (exec j).2 = none)
    (hfail : (exec n).2 = some e) :
    (SetContainerTcRules exec ipt tcs iter).trace
        = (flushCmd :: fullPlan tcs iter).take (n + 1)
    ∧ (SetContainerTcRules exec ipt tcs iter).err
        = some (encodeOutputToError (exec n).1 e)
    ∧ (SetContainerTcRules exec ipt tcs iter).chains = none := by
  rw [SetContainerTcRules_eq_plan exec ipt tcs iter hwfG hwfF]
  rw [flush_of_success (hpre 0 (by omega))]
  have harg : 1 + (n - 1) = n := by omega
  have hrc := runCmds_fail exec (fullPlan tcs iter) 1 (n - 1) e (by omega)
    (fun i hi => by
      have hp := hpre (1 + i) (by omega)
      exact hp)
    (by rw [harg]; exact hfail)
  rw [harg] at hrc
  have hn2 : n - 1 + 1 = n := by omega
  rw [hn2] at hrc
  rw [hrc]
  simp only [List.take_succ_cons]
  exact ⟨trivial, trivial, trivial⟩

/-- Claim C3 witness: the global chain of the worked example. -/
theorem global_chain_layout_witness :
    (SetContainerTcRules execOk iptOk demoTcs demoIterAB).trace.take 3
      = [["qdisc", "del", "dev", "eth0", "root"],
         ["qdisc", "add", "dev", "eth0", "root", "handle", "1:", "netem", "delay", "50000"],
         ["qdisc", "add", "dev", "eth0", "parent", "1:", "handle", "2:", "netem",
          "delay", "100000"]] :=
  global_chain_layout execOk iptOk demoTcs demoIterAB (by decide) (by decide) (fun _ => rfl)

/-- Claim C4 witness: the multiplexer segment of the worked example (two
global rules, two filtered groups, hence five bands). -/
theorem prio_layout_witness :
    ((SetContainerTcRules execOk iptOk demoTcs demoIterAB).trace.drop 3).take 4
      = [["qdisc", "add", "dev", "eth0", "parent", "2:", "handle", "3:", "prio", "bands", "5",
          "priomap", "1", "2", "2", "2", "1", "2", "0", "0", "1", "1", "1", "1", "1", "1",
          "1", "1"],
         ["qdisc", "add", "dev", "eth0", "parent", "3:1", "handle", "4:", "sfq"],
         ["qdisc", "add", "dev", "eth0", "parent", "3:2", "handle", "5:", "sfq"],
         ["qdisc", "add", "dev", "eth0", "parent", "3:3", "handle", "6:", "sfq"]] :=
  prio_layout execOk iptOk demoTcs demoIterAB (by decide) (by decide) (by decide) (fun _ => rfl)

/-- Claim C5 witness: in the worked example the filtered rules get handles
`7:` and `8:`, parents `3:4` and `3:5`, and matching classification targets. -/
theorem filtered_groups_layout_witness :
    ((SetContainerTcRules execOk iptOk demoTcs demoIterAB).trace.drop 7).map
        (fun c => c.getD 7 noTok) = ["7:", "8:"]
    ∧ (List.range 2).map (fun j =>
        (((SetContainerTcRules execOk iptOk demoTcs demoIterAB).trace.drop 7).getD
            (offsetUpTo demoIterAB j) []).getD 5 noTok) = ["3:4", "3:5"]
    ∧ ((SetContainerTcRules execOk iptOk demoTcs demoIterAB).chains.getD []).map
        (fun c => c.target)
      = ["CLASSIFY --set-class 3:4", "CLASSIFY --set-class 3:5"]
    ∧ (SetContainerTcRules execOk iptOk demoTcs demoIterAB).chains.isSome = true :=
  filtered_groups_layout execOk iptOk demoTcs demoIterAB (by decide) (by decide) (by decide)
    (fun _ => rfl)

/-- A runner that fails on its fourth invocation (the third qdisc-add of a
plan, the flush being invocation 0) and succeeds otherwise. -/
def execFail3 : Exec := fun k => if k = 3 then ("out3", some ("boom")) else ("", none)

/-- Claim C7 witness: failing the 3rd add operation of the worked example's
eight-operation plan stops the trace right there, returns that operation's
wrapped error and never reaches the iptables collaborator. -/
theorem abort_on_first_failure_witness :
    (SetContainerTcRules execFail3 iptOk demoTcs demoIterAB).trace
        = (flushCmd :: fullPlan demoTcs demoIterAB).take 4
    ∧ (SetContainerTcRules execFail3 iptOk demoTcs demoIterAB).err
        = some (encodeOutputToError ("out3") ("boom"))
    ∧ (SetContainerTcRules execFail3 iptOk demoTcs demoIterAB).chains = none :=
  abort_on_first_failure execFail3 iptOk demoTcs demoIterAB (by decide) (by decide) 3 ("boom")
    (by omega) (by decide) (by decide) rfl

end ChaosdTc
